import Mathlib

/-
  Shallow embedding of the query-plan graph builder of `src/app/bq_query_plan.ts`
  (class `BqQueryPlan`).  JavaScript values are modelled as follows:

  * a possibly-absent object property is an `Option`;
  * a JS number is a rational (`ℚ`); the JS value `NaN` is `none` in `Option ℚ`
    (the numbers this program manipulates come from decimal strings, so no
    infinities arise on the modelled paths);
  * a thrown JS exception (`TypeError` etc.) is `Except.error ()`;
  * `undefined` results are `none`;
  * locale formatting (`toLocaleString('en')`, `new Date`) is presentational;
    the enrichment pass is modelled as storing the structured value that the
    code formats (`DisplayVal`), keyed by the exact property-name strings the
    code uses.
-/

namespace BqVis

/-- One entry of `QueryStep` from `rest_interfaces`: a kind tag and substeps. -/
structure QueryStep where
  kind : String
  substeps : List String
deriving DecidableEq

/-- The structured value stored by the enrichment pass under a display key.
`numFmt q` models `q.toLocaleString('en')`, `avgMax a m` models the
`'avg: X max: Y'` strings (`none` = NaN operand), `date q` models
`new Date(q)`, `pct q` models `q.toLocaleString('en') + '% of job duration'`. -/
inductive DisplayVal where
  | numFmt : ℚ → DisplayVal
  | avgMax : Option ℚ → Option ℚ → DisplayVal
  | date : ℚ → DisplayVal
  | pct : ℚ → DisplayVal
deriving DecidableEq

/-- A query-plan stage (`QueryStage` of `rest_interfaces`); `none` models an
absent property.  `extra` models the ad hoc display-keyed properties that
`improveNodeInfo` assigns onto the stage object. -/
structure QueryStage where
  id : String
  name : String
  status : Option String := none
  steps : Option (List QueryStep) := none
  inputStages : Option (List String) := none
  startMs : Option String := none
  endMs : Option String := none
  waitMsAvg : Option String := none
  waitMsMax : Option String := none
  readMsAvg : Option String := none
  readMsMax : Option String := none
  computeMsAvg : Option String := none
  computeMsMax : Option String := none
  writeMsAvg : Option String := none
  writeMsMax : Option String := none
  isExternal : Option Bool := none
  extra : List (String × DisplayVal) := []
deriving DecidableEq

/-- The `query` object under `statistics` (holds `queryPlan`). -/
structure QueryInfo where
  queryPlan : Option (List QueryStage) := none
deriving DecidableEq

/-- The `statistics` block of a job document. -/
structure Statistics where
  query : Option QueryInfo := none
  startTime : Option String := none
  endTime : Option String := none
deriving DecidableEq

/-- A job document (`Job` of `rest_interfaces`): `kind = none` models a
document without a `kind` property (`!plan.hasOwnProperty('kind')`). -/
structure Job where
  kind : Option String := none
  id : String := ""
  statistics : Option Statistics := none
deriving DecidableEq

/-- An edge of the plan graph.  The source stores `from: this.getNode(...)`
and `to: node` as object references; references are modelled by stage id
(ids are unique per the plan invariant), and `fromId = none` models the
`undefined` that `getNode` would return if no node matched. -/
structure Edge where
  fromId : Option String
  toId : String
  outputName : String
deriving DecidableEq

/-- The constructed plan object: node list, edge list, validity flag, and the
messages the constructor sent to the diagnostic sink (`logSvc.warn`). -/
structure BqQueryPlan where
  plan : Job
  nodes : List QueryStage
  edges : List Edge
  isValid : Bool
  log : List String
deriving DecidableEq

/-- JS truthiness of a possibly-absent string property: absent (`undefined`)
and the empty string are falsy, every other string is truthy. -/
def jsTruthy : Option String → Bool
  | none => false
  | some s => s ≠ ""

/-- Digits-only string contents to a natural number. -/
def digitsToNat : List Char → Option Nat
  | [] => none
  | cs =>
    if cs.all (fun c => c.isDigit) then
      some (cs.foldl (fun a c => 10 * a + (c.toNat - 48)) 0)
    else none

/-- Models `Number(s)` for the decimal-integer strings this program consumes
(`''` converts to `0`, an optional leading minus sign then digits converts to
the signed value, anything else is NaN = `none`). -/
def parseNum (s : String) : Option ℚ :=
  if s = "" then some 0
  else
    match s.data with
    | '-' :: rest => (digitsToNat rest).map (fun n => -(n : ℚ))
    | cs => (digitsToNat cs).map (fun n => (n : ℚ))

/-- Models `Number(x)` where `x` is a possibly-absent string property
(`Number(undefined)` is NaN). -/
def jsNumber : Option String → Option ℚ
  | none => none
  | some s => parseNum s

/-- Models JS `s.startsWith(p)`. -/
def strHasPrefix (s p : String) : Bool := p.data.isPrefixOf s.data

/-- Models JS `s.split(' ')`: split on every single space, keeping empty
chunks (`''.split(' ') = ['']`). -/
def splitOnSpaceAux : List Char → List Char → List String
  | [], cur => [String.mk cur.reverse]
  | c :: cs, cur =>
    if c = ' ' then String.mk cur.reverse :: splitOnSpaceAux cs []
    else splitOnSpaceAux cs (c :: cur)

def splitOnSpace (s : String) : List String := splitOnSpaceAux s.data []

/-- `this.nodes.find(x => x.id === id)` (method `getNode`). -/
def getNode (nodes : List QueryStage) (id : String) : Option QueryStage :=
  nodes.find? (fun x => x.id == id)

/-- The ghost node `{name: sourceNodeId, id: sourceNodeId, isExternal: true}`
synthesized in the constructor; every other property is absent. -/
def mkGhost (sourceNodeId : String) : QueryStage :=
  { id := sourceNodeId, name := sourceNodeId, isExternal := some true }

/-- The body of the `map` over READ steps in `getReads`: find the first
substep starting with `'FROM '` (if none, `readSubstep.split` throws —
`Except.error`), split it on spaces and take token 1; a token with a
`'__'` prefix maps to `null` (`none`). -/
def readFromStep (step : QueryStep) : Except Unit (Option String) :=
  match step.substeps.find? (fun ss => strHasPrefix ss "FROM ") with
  | none => .error ()
  | some readSubstep =>
    match (splitOnSpace readSubstep)[1]? with
    | none => .error ()
    | some item => .ok (if strHasPrefix item "__" then none else some item)

/-- `steps.filter(kind === 'READ').map(...)` — the map over the filtered
steps, propagating the exception of any element. -/
def mapReadSteps : List QueryStep → Except Unit (List (Option String))
  | [] => .ok []
  | step :: rest =>
    match readFromStep step with
    | .error e => .error e
    | .ok v =>
      match mapReadSteps rest with
      | .error e => .error e
      | .ok vs => .ok (v :: vs)

/-- Method `getReads`: a stage without `steps` (ghost) yields `[]`; otherwise
the FROM-tokens of its READ steps (dropping `null` and `''` — the JS
`.filter(item => item)`), then all of `inputStages` appended. -/
def getReads (node : QueryStage) : Except Unit (List String) :=
  match node.steps with
  | none => .ok []
  | some steps =>
    match mapReadSteps (steps.filter (fun s => s.kind == "READ")) with
    | .error e => .error e
    | .ok mapped =>
      .ok (((mapped.filterMap id).filter (fun s => s ≠ "")) ++
           node.inputStages.getD [])

/-- The reads of a stage on the non-throwing path ( `[]` on the throwing
path); used to state results and to measure the construction loop. -/
def readsOf (node : QueryStage) : List String :=
  match getReads node with
  | .ok l => l
  | .error _ => []

/-- The inner `for (const sourceNodeId of this.getReads(node))` loop body,
iterated over the read list: if `getNode` finds nothing, push the ghost node;
then push an edge whose `from` is the node `getNode` now resolves (modelled
by its id) and whose `to`/`outputName` come from the consuming node.
Returns the grown node list, the grown edge list, and the ids of the ghost
nodes that were pushed (in push order). -/
def addReads (node : QueryStage) :
    List String → List QueryStage → List Edge →
    List QueryStage × List Edge × List String
  | [], nodes, edges => (nodes, edges, [])
  | r :: rs, nodes, edges =>
    match getNode nodes r with
    | some _ =>
      let edge : Edge :=
        { fromId := (getNode nodes r).map (fun x => x.id),
          toId := node.id, outputName := node.name }
      addReads node rs nodes (edges ++ [edge])
    | none =>
      let nodes' := nodes ++ [mkGhost r]
      let edge : Edge :=
        { fromId := (getNode nodes' r).map (fun x => x.id),
          toId := node.id, outputName := node.name }
      let res := addReads node rs nodes' (edges ++ [edge])
      (res.1, res.2.1, r :: res.2.2)

/-- Fuel bound for the construction loop: the JS `for...of` iterates the
`this.nodes` array while ghost nodes are being pushed onto its end, so the
iteration also visits every pushed ghost.  Each visited element costs one
step plus one future step per ghost it can push (at most one per read). -/
def loopMeasure (pending : List QueryStage) : Nat :=
  pending.foldr (fun n acc => 1 + (readsOf n).length + acc) 0

/-- The constructor's first `for (const node of this.nodes)` loop.  `pending`
is the part of the array the iterator has not visited yet; ghosts pushed by
`addReads` are appended both to the node list and to `pending` (the JS array
iterator reaches them).  The fuel is only a termination device:
`buildLoopF_fuel` below proves the zero-fuel branch is unreachable from the
entry point `buildLoop`. -/
def buildLoopF : Nat → List QueryStage → List QueryStage → List Edge →
    Except Unit (List QueryStage × List Edge)
  | 0, _, nodes, edges => .ok (nodes, edges)
  | _ + 1, [], nodes, edges => .ok (nodes, edges)
  | fuel + 1, n :: rest, nodes, edges =>
    match getReads n with
    | .error e => .error e
    | .ok reads =>
      let res := addReads n reads nodes edges
      buildLoopF fuel (rest ++ res.2.2.map mkGhost) res.1 res.2.1

def buildLoop (pending nodes : List QueryStage) (edges : List Edge) :
    Except Unit (List QueryStage × List Edge) :=
  buildLoopF (loopMeasure pending) pending nodes edges

/-- Replace-or-append assignment `node[key] = v` on the display-key property
bag of a stage. -/
def setExtra (key : String) (v : DisplayVal)
    (l : List (String × DisplayVal)) : List (String × DisplayVal) :=
  if l.any (fun p => p.1 == key) then
    l.map (fun p => if p.1 == key then (key, v) else p)
  else l ++ [(key, v)]

/-- Look a display key up in a stage's property bag. -/
def getDisplay (node : QueryStage) (key : String) : Option DisplayVal :=
  (node.extra.find? (fun p => p.1 == key)).map (fun p => p.2)

/-- Method `improveNodeInfo`: skip stages whose `startMs`/`endMs` is falsy,
convert the four timestamps with `Number`, skip if any is NaN, otherwise
assign the nine derived display properties (exact key strings of the
source, in assignment order — innermost `setExtra` first). -/
def improveNodeInfo (stats : Statistics) (node : QueryStage) : QueryStage :=
  if jsTruthy node.startMs && jsTruthy node.endMs then
    match jsNumber node.endMs, jsNumber node.startMs,
          jsNumber stats.startTime, jsNumber stats.endTime with
    | some endMs, some startMs, some jobStartMs, some jobEndMs =>
      let duration := endMs - startMs
      let startPct := (100 * (startMs - jobStartMs)) / (jobEndMs - jobStartMs)
      let endPct := (100 * (endMs - jobStartMs)) / (jobEndMs - jobStartMs)
      { node with extra := (
          setExtra "end %       " (.pct endPct) <|
          setExtra "start %     " (.pct startPct) <|
          setExtra "endTime     " (.date endMs) <|
          setExtra "startTime   " (.date startMs) <|
          setExtra "write (ms)  "
            (.avgMax (jsNumber node.writeMsAvg) (jsNumber node.writeMsMax)) <|
          setExtra "compute (ms)"
            (.avgMax (jsNumber node.computeMsAvg) (jsNumber node.computeMsMax)) <|
          setExtra "read (ms)   "
            (.avgMax (jsNumber node.readMsAvg) (jsNumber node.readMsMax)) <|
          setExtra "wait (ms)   "
            (.avgMax (jsNumber node.waitMsAvg) (jsNumber node.waitMsMax)) <|
          setExtra "durationMs  " (.numFmt duration) node.extra) }
    | _, _, _, _ => node
  else node

/-- The constructor's second loop: `for (const node of this.nodes)
this.improveNodeInfo(node)` (no pushes happen here, so it is a plain map). -/
def enrich (stats : Statistics) (nodes : List QueryStage) : List QueryStage :=
  nodes.map (improveNodeInfo stats)

/-- The `BqQueryPlan` constructor.  The three validation failures return a
usable invalid plan carrying the warning text sent to the diagnostic sink;
reading `this.plan.statistics.query` with an absent `statistics` block is a
thrown `TypeError` (`Except.error`), as is a failure inside `getReads`. -/
def construct (job : Job) : Except Unit BqQueryPlan :=
  match job.kind with
  | none =>
    .ok { plan := job, nodes := [], edges := [], isValid := false,
          log := ["No plan document found in job."] }
  | some kind =>
    if strHasPrefix kind "bigquery" then
      match job.statistics with
      | none => .error ()
      | some stats =>
        match stats.query with
        | none =>
          .ok { plan := job, nodes := [], edges := [], isValid := false,
                log := ["No query found in job " ++ job.id] }
        | some q =>
          match q.queryPlan with
          | none =>
            .ok { plan := job, nodes := [], edges := [], isValid := false,
                  log := ["No query found in job " ++ job.id] }
          | some qp =>
            match buildLoop qp qp [] with
            | .error e => .error e
            | .ok res =>
              .ok { plan := job, nodes := enrich stats res.1,
                    edges := res.2, isValid := true, log := [] }
    else
      .ok { plan := job, nodes := [], edges := [], isValid := false,
            log := ["Retrieved document is not of kind bigquery but of kind "
                    ++ kind ++ "."] }

/-- One row of the Gantt data table:
`[node.id, node.name, new Date(Number(node.startMs)),
new Date(Number(node.endMs)), null, 100, null]`. -/
structure GanttRow where
  id : String
  name : String
  startDate : Option ℚ
  endDate : Option ℚ
  duration : Option ℚ
  percentComplete : ℚ
  dependencies : Option String
deriving DecidableEq

/-- The filter of `asGoogleGantt`:
`!node.hasOwnProperty('isExternal') || !node.isExternal`. -/
def keepInGantt (node : QueryStage) : Bool :=
  !node.isExternal.isSome || !node.isExternal.getD false

def ganttRow (node : QueryStage) : GanttRow :=
  { id := node.id, name := node.name,
    startDate := jsNumber node.startMs, endDate := jsNumber node.endMs,
    duration := none, percentComplete := 100, dependencies := none }

/-- The row set handed to the chart by `asGoogleGantt` (the chart itself is
an external collaborator; only the row projection is modelled). -/
def ganttRows (nodes : List QueryStage) : List GanttRow :=
  (nodes.filter keepInGantt).map ganttRow

/-- `Math.max(a, b)`: NaN-propagating maximum. -/
def jsMax2 : Option ℚ → Option ℚ → Option ℚ
  | some a, some b => some (max a b)
  | _, _ => none

/-- `Math.max(...list)` for a non-empty list (the code applies it to a
4-element literal, so the `-Infinity` base case of JS never surfaces). -/
def jsMaxList : List (Option ℚ) → Option ℚ
  | [] => none
  | [x] => x
  | x :: y :: xs => jsMax2 x (jsMaxList (y :: xs))

/-- `timeList.indexOf(maxTime)` under JS strict equality (NaN is equal to
nothing, including itself); `none` models the `-1` result. -/
def jsIndexOf (l : List (Option ℚ)) (v : Option ℚ) : Option Nat :=
  l.findIdx? (fun x =>
    match x, v with
    | some a, some b => a == b
    | _, _ => false)

/-- The 4-entry palette of `colorForMaxTime`. -/
def palette : List String := ["#fbc02d", "#7b1fa2", "#ef6c00", "#1565c0"]

/-- Method `colorForMaxTime`: on a truthy `waitMsAvg`, index the palette by
`indexOf` of the maximum of `[wait, read, compute, wait]`; indexing at `-1`
(the all-callers-miss case, e.g. a NaN maximum) yields `undefined` (`none`).
Otherwise the fixed default color. -/
def colorForMaxTime (node : QueryStage) : Option String :=
  if jsTruthy node.waitMsAvg then
    let timeList := [jsNumber node.waitMsAvg, jsNumber node.readMsAvg,
                     jsNumber node.computeMsAvg, jsNumber node.waitMsAvg]
    let maxTime := jsMaxList timeList
    match jsIndexOf timeList maxTime with
    | none => none
    | some i => palette[i]?
  else some "#2290FF"

/-- The stage ids a plan starts from plus the ghost ids pushed so far, in the
order the constructor's loop discovers them: a read reference already known
(a real stage id or an earlier ghost) adds nothing, a fresh one is appended.
This is the specification-side description of ghost synthesis, compared with
the loop below. -/
def newSourceIds (known : List String) : List String → List String
  | [] => []
  | r :: rs =>
    if r ∈ known then newSourceIds known rs
    else r :: newSourceIds (known ++ [r]) rs

/-- All source references extracted across the given stages, in stage order. -/
def allReads (qp : List QueryStage) : List String := (qp.map readsOf).flatten

/-- The ghost ids a well-formed plan with stage list `qp` acquires. -/
def ghostIds (qp : List QueryStage) : List String :=
  newSourceIds (qp.map QueryStage.id) (allReads qp)

/-- Both endpoints of an edge resolve to nodes of the given node set. -/
def edgeClosed (e : Edge) (nodes : List QueryStage) : Prop :=
  (∃ f, e.fromId = some f ∧ f ∈ nodes.map QueryStage.id) ∧
    e.toId ∈ nodes.map QueryStage.id

/-- A present, non-empty timestamp string that `Number` converts to a number
(an absent property and the empty string are not valid timestamps). -/
def validTimestamp (o : Option String) : Bool :=
  match o with
  | none => false
  | some s => s ≠ "" && (parseNum s).isSome

/-- Every READ step of the stage has a substep starting with `'FROM '` —
the condition under which `getReads` does not throw. -/
def stageSafe (s : QueryStage) : Bool :=
  (s.steps.getD []).all (fun step =>
    step.kind != "READ" ||
      (step.substeps.find? (fun ss => strHasPrefix ss "FROM ")).isSome)

/-- The inputs on which construction provably completes without throwing:
either a validation fails before `statistics.query` is dereferenced, or the
statistics block is present and every stage is `stageSafe`. -/
def jobSafe (job : Job) : Bool :=
  match job.kind with
  | none => true
  | some k =>
    !strHasPrefix k "bigquery" ||
      (match job.statistics with
       | none => false
       | some stats =>
         match stats.query with
         | none => true
         | some q =>
           match q.queryPlan with
           | none => true
           | some qp => qp.all stageSafe)

/-- Specification-side color bucket choice: the index of the FIRST entry of
`[wait, read, compute, wait]` attaining the maximum of that list. -/
def firstMaxIdx (w r c : ℚ) : Nat :=
  [w, r, c, w].findIdx (fun x => x == max (max (max w r) c) w)

/-- The nine display keys `improveNodeInfo` assigns (exact source strings). -/
def displayKeys : List String :=
  ["durationMs  ", "wait (ms)   ", "read (ms)   ", "compute (ms)",
   "write (ms)  ", "startTime   ", "endTime     ", "start %     ",
   "end %       "]

/-! Concrete inputs used by witnesses and counterexamples. -/

def exJobNoKind : Job := { id := "j0" }

def exJobWrongKind : Job := { kind := some "storage#object", id := "j1" }

def exJobNoStats : Job := { kind := some "bigquery#job", id := "j2" }

def exJobNoQuery : Job :=
  { kind := some "bigquery#job", id := "j3", statistics := some {} }

def exStageReads : QueryStage :=
  { id := "s1", name := "S1",
    startMs := some "1000", endMs := some "3000",
    steps := some [ { kind := "READ", substeps := ["FROM tbl.a", "x"] },
                    { kind := "WRITE", substeps := ["TO out"] } ] }

def exStageInputs : QueryStage :=
  { id := "s2", name := "S2",
    steps := some [ { kind := "READ", substeps := ["FROM __stage1"] } ],
    inputStages := some ["s1", "tbl.a"] }

def exQp : List QueryStage := [exStageReads, exStageInputs]

def exStats : Statistics :=
  { query := some { queryPlan := some exQp },
    startTime := some "0", endTime := some "10000" }

def exJobOk : Job :=
  { kind := some "bigquery#job", id := "j4", statistics := some exStats }

/-- The plan `construct exJobOk` evaluates to (the `getD` default is never
taken: `construct exJobOk` is an `ok`). -/
def exP : BqQueryPlan :=
  (construct exJobOk).toOption.getD
    { plan := exJobOk, nodes := [], edges := [], isValid := false, log := [] }

def exStageUnderscore : QueryStage :=
  { id := "s1", name := "S1", steps := some [], inputStages := some ["__in"] }

def exJobUnderscore : Job :=
  { kind := some "bigquery#job", id := "j5",
    statistics := some { query := some { queryPlan := some [exStageUnderscore] } } }

def exStageBadRead : QueryStage :=
  { id := "b", name := "B",
    steps := some [ { kind := "READ", substeps := ["no source here"] } ] }

def exJobBadRead : Job :=
  { kind := some "bigquery#job", id := "j6",
    statistics := some { query := some { queryPlan := some [exStageBadRead] } } }

def exStatsTimes : Statistics := { startTime := some "0", endTime := some "10000" }

def exStageTimes : QueryStage :=
  { id := "s", name := "S", startMs := some "1000", endMs := some "3000" }

def exStageBadStart : QueryStage :=
  { id := "t", name := "T", startMs := some "abc", endMs := some "3000" }

def exNodeWaitOnly : QueryStage :=
  { id := "c", name := "C", waitMsAvg := some "5" }

def exNodeAllAvgs : QueryStage :=
  { id := "d", name := "D", waitMsAvg := some "5",
    readMsAvg := some "9", computeMsAvg := some "2" }

def exNodeInternal : QueryStage :=
  { id := "a", name := "A", startMs := some "1", endMs := some "2" }

def exNodeExternal : QueryStage := mkGhost "g"

/-- The empty invalid plan the constructor returns on each validation
failure, carrying the warning message sent to the diagnostic sink. -/
def invalidPlan (job : Job) (msg : String) : BqQueryPlan :=
  { plan := job, nodes := [], edges := [], isValid := false, log := [msg] }

/-! Basic facts about ghosts, the loop measure, and node lookup. -/

theorem getReads_mkGhost (g : String) : getReads (mkGhost g) = .ok [] := rfl

theorem readsOf_mkGhost (g : String) : readsOf (mkGhost g) = [] := rfl

theorem mkGhost_id (g : String) : (mkGhost g).id = g := rfl

theorem stageSafe_mkGhost (g : String) : stageSafe (mkGhost g) = true := rfl

theorem loopMeasure_nil : loopMeasure [] = 0 := rfl

theorem loopMeasure_cons (n : QueryStage) (rest : List QueryStage) :
    loopMeasure (n :: rest) = 1 + (readsOf n).length + loopMeasure rest := rfl

theorem loopMeasure_append (a b : List QueryStage) :
    loopMeasure (a ++ b) = loopMeasure a + loopMeasure b := by
  induction a with
  | nil => simp [loopMeasure]
  | cons n a ih => simp only [List.cons_append, loopMeasure_cons, ih]; omega

theorem loopMeasure_map_mkGhost (gs : List String) :
    loopMeasure (gs.map mkGhost) = gs.length := by
  induction gs with
  | nil => rfl
  | cons g gs ih =>
    simp only [List.map_cons, loopMeasure_cons, readsOf_mkGhost, ih,
      List.length_nil, List.length_cons]
    omega

theorem map_id_map_mkGhost (gs : List String) :
    (gs.map mkGhost).map QueryStage.id = gs := by
  induction gs with
  | nil => rfl
  | cons g gs ih => simp [mkGhost_id, ih]

theorem flatten_reads_map_mkGhost (gs : List String) :
    ((gs.map mkGhost).map readsOf).flatten = [] := by
  induction gs with
  | nil => rfl
  | cons g gs ih => simp [readsOf_mkGhost, ih]

theorem getNode_isSome_iff (nodes : List QueryStage) (r : String) :
    (getNode nodes r).isSome = true ↔ r ∈ nodes.map QueryStage.id := by
  simp only [getNode, List.find?_isSome, List.mem_map, beq_iff_eq]

theorem getNode_eq_some (nodes : List QueryStage) (r : String) (x : QueryStage)
    (h : getNode nodes r = some x) : x ∈ nodes ∧ x.id = r :=
  ⟨List.mem_of_find?_eq_some h, by
    have := List.find?_some h; simpa using this⟩

/-! Facts about the specification-side ghost-id computation. -/

theorem newSourceIds_append (xs : List String) :
    ∀ (known ys : List String),
      newSourceIds known (xs ++ ys) =
        newSourceIds known xs ++
          newSourceIds (known ++ newSourceIds known xs) ys := by
  induction xs with
  | nil => intro known ys; simp [newSourceIds]
  | cons x xs ih =>
    intro known ys
    by_cases hx : x ∈ known
    · simp only [List.cons_append, newSourceIds, if_pos hx]
      exact ih known ys
    · simp only [List.cons_append, newSourceIds, if_neg hx, List.append_eq]
      rw [ih (known ++ [x]) ys]
      simp [List.append_assoc]

theorem mem_newSourceIds (rs : List String) :
    ∀ (known : List String) (r : String),
      r ∈ newSourceIds known rs ↔ (r ∈ rs ∧ r ∉ known) := by
  induction rs with
  | nil => intro known r; simp [newSourceIds]
  | cons x xs ih =>
    intro known r
    by_cases hx : x ∈ known
    · rw [newSourceIds, if_pos hx, ih]
      constructor
      · rintro ⟨h1, h2⟩; exact ⟨List.mem_cons_of_mem _ h1, h2⟩
      · rintro ⟨h1, h2⟩
        rcases List.mem_cons.1 h1 with rfl | h1
        · exact absurd hx h2
        · exact ⟨h1, h2⟩
    · rw [newSourceIds, if_neg hx]
      by_cases hrx : r = x
      · subst hrx; simp [hx]
      · simp only [List.mem_cons, hrx, false_or, ih, List.mem_append,
          List.mem_singleton]
        tauto

theorem newSourceIds_nodup (rs : List String) :
    ∀ (known : List String),
      (newSourceIds known rs).Nodup ∧
        ∀ r ∈ newSourceIds known rs, r ∉ known := by
  induction rs with
  | nil => intro known; simp [newSourceIds]
  | cons x xs ih =>
    intro known
    by_cases hx : x ∈ known
    · rw [newSourceIds, if_pos hx]; exact ih known
    · rw [newSourceIds, if_neg hx]
      obtain ⟨hnd, hni⟩ := ih (known ++ [x])
      refine ⟨List.nodup_cons.2 ⟨fun hmem => ?_, hnd⟩, ?_⟩
      · exact hni x hmem (by simp)
      · intro r hr
        rcases List.mem_cons.1 hr with rfl | hr
        · exact hx
        · intro hk; exact hni r hr (by simp [hk])

theorem newSourceIds_length_le (rs : List String) :
    ∀ (known : List String), (newSourceIds known rs).length ≤ rs.length := by
  induction rs with
  | nil => intro known; simp [newSourceIds]
  | cons x xs ih =>
    intro known
    by_cases hx : x ∈ known
    · rw [newSourceIds, if_pos hx]
      exact (ih known).trans (Nat.le_succ _)
    · rw [newSourceIds, if_neg hx]
      simpa using ih (known ++ [x])

/-! The inner read loop grows the node list exactly by the fresh ghosts. -/

theorem addReads_spec (node : QueryStage) (rs : List String) :
    ∀ (nodes : List QueryStage) (edges : List Edge),
      (addReads node rs nodes edges).2.2 =
          newSourceIds (nodes.map QueryStage.id) rs ∧
      (addReads node rs nodes edges).1 =
          nodes ++ (newSourceIds (nodes.map QueryStage.id) rs).map mkGhost := by
  induction rs with
  | nil => intro nodes edges; simp [addReads, newSourceIds]
  | cons r rs ih =>
    intro nodes edges
    cases hg : getNode nodes r with
    | some x =>
      have hr : r ∈ nodes.map QueryStage.id := by
        rw [← getNode_isSome_iff, hg]; rfl
      simp only [addReads, hg]
      rw [newSourceIds, if_pos hr]
      exact ih nodes _
    | none =>
      have hr : r ∉ nodes.map QueryStage.id := by
        rw [← getNode_isSome_iff, hg]; simp
      have hids : (nodes ++ [mkGhost r]).map QueryStage.id =
          nodes.map QueryStage.id ++ [r] := by simp [mkGhost_id]
      obtain ⟨ih1, ih2⟩ := ih (nodes ++ [mkGhost r])
        (edges ++ [{ fromId := (getNode (nodes ++ [mkGhost r]) r).map
                        (fun x => x.id),
                     toId := node.id, outputName := node.name }])
      simp only [addReads, hg]
      rw [newSourceIds, if_neg hr]
      refine ⟨?_, ?_⟩
      · rw [ih1, hids]
      · rw [ih2, hids]
        simp [List.append_assoc]

theorem addReads_edges_len (node : QueryStage) (rs : List String) :
    ∀ (nodes : List QueryStage) (edges : List Edge),
      (addReads node rs nodes edges).2.1.length = edges.length + rs.length := by
  induction rs with
  | nil => intro nodes edges; simp [addReads]
  | cons r rs ih =>
    intro nodes edges
    cases hg : getNode nodes r with
    | some x =>
      simp only [addReads, hg]
      rw [ih]
      simp; omega
    | none =>
      simp only [addReads, hg]
      rw [ih]
      simp; omega

theorem mem_ids_addReads (node : QueryStage) (rs : List String)
    (nodes : List QueryStage) (edges : List Edge) (f : String)
    (h : f ∈ nodes.map QueryStage.id) :
    f ∈ (addReads node rs nodes edges).1.map QueryStage.id := by
  obtain ⟨_, hn1⟩ := addReads_spec node rs nodes edges
  rw [hn1, List.map_append]
  exact List.mem_append_left _ h

theorem addReads_edges_mem (node : QueryStage) (rs : List String) :
    ∀ (nodes : List QueryStage) (edges : List Edge),
      ∀ e ∈ (addReads node rs nodes edges).2.1,
        e ∈ edges ∨
          (e.toId = node.id ∧ e.outputName = node.name ∧
            ∃ f, e.fromId = some f ∧
              f ∈ (addReads node rs nodes edges).1.map QueryStage.id) := by
  induction rs with
  | nil =>
    intro nodes edges e he
    simp only [addReads] at he
    exact Or.inl he
  | cons r rs ih =>
    intro nodes edges e he
    cases hg : getNode nodes r with
    | some x =>
      simp only [addReads, hg] at he ⊢
      rcases ih nodes _ e he with h | h
      · rcases List.mem_append.1 h with h | h
        · exact Or.inl h
        · right
          rcases List.mem_singleton.1 h with rfl
          refine ⟨rfl, rfl, x.id, rfl, ?_⟩
          obtain ⟨hmem, _⟩ := getNode_eq_some nodes r x hg
          exact mem_ids_addReads _ _ _ _ _ (List.mem_map_of_mem _ hmem)
      · exact Or.inr h
    | none =>
      simp only [addReads, hg] at he ⊢
      rcases ih (nodes ++ [mkGhost r]) _ e he with h | h
      · rcases List.mem_append.1 h with h | h
        · exact Or.inl h
        · right
          rcases List.mem_singleton.1 h with rfl
          have hsome : (getNode (nodes ++ [mkGhost r]) r).isSome = true := by
            rw [getNode_isSome_iff, List.map_append]
            exact List.mem_append_right _ (by simp [mkGhost_id])
          obtain ⟨y, hy⟩ := Option.isSome_iff_exists.1 hsome
          obtain ⟨hymem, _⟩ := getNode_eq_some _ r y hy
          refine ⟨rfl, rfl, y.id, by rw [hy]; rfl, ?_⟩
          exact mem_ids_addReads _ _ _ _ _ (List.mem_map_of_mem _ hymem)
      · exact Or.inr h

/-! Invariants of the constructor's ghost-and-edge loop. -/

theorem buildLoopF_nodes (fuel : Nat) :
    ∀ (pending nodes : List QueryStage) (edges : List Edge)
      (N : List QueryStage) (E : List Edge),
      loopMeasure pending ≤ fuel →
      buildLoopF fuel pending nodes edges = .ok (N, E) →
      N = nodes ++ (newSourceIds (nodes.map QueryStage.id)
            ((pending.map readsOf).flatten)).map mkGhost := by
  induction fuel with
  | zero =>
    intro pending nodes edges N E hm hb
    cases pending with
    | nil =>
      simp only [buildLoopF, Except.ok.injEq, Prod.mk.injEq] at hb
      simp [newSourceIds, ← hb.1]
    | cons n rest => simp [loopMeasure_cons] at hm
  | succ fuel ih =>
    intro pending nodes edges N E hm hb
    cases pending with
    | nil =>
      simp only [buildLoopF, Except.ok.injEq, Prod.mk.injEq] at hb
      simp [newSourceIds, ← hb.1]
    | cons n rest =>
      simp only [buildLoopF] at hb
      split at hb
      · exact absurd hb (by simp)
      · rename_i reads hg
        have hro : readsOf n = reads := by simp [readsOf, hg]
        obtain ⟨hg1, hn1⟩ := addReads_spec n reads nodes edges
        have hlen : (addReads n reads nodes edges).2.2.length ≤ reads.length := by
          rw [hg1]; exact newSourceIds_length_le _ _
        have hm2 : loopMeasure
            (rest ++ (addReads n reads nodes edges).2.2.map mkGhost) ≤ fuel := by
          rw [loopMeasure_append, loopMeasure_map_mkGhost]
          rw [loopMeasure_cons, hro] at hm
          omega
        have hN := ih _ _ _ N E hm2 hb
        rw [hg1, hn1] at hN
        have hflat : ((rest ++
              (newSourceIds (nodes.map QueryStage.id) reads).map mkGhost).map
                readsOf).flatten = (rest.map readsOf).flatten := by
          rw [List.map_append, List.flatten_append, flatten_reads_map_mkGhost]
          simp
        have hids : ((nodes ++
              (newSourceIds (nodes.map QueryStage.id) reads).map mkGhost).map
                QueryStage.id) =
            nodes.map QueryStage.id ++
              newSourceIds (nodes.map QueryStage.id) reads := by
          rw [List.map_append, map_id_map_mkGhost]
        rw [hflat, hids] at hN
        rw [hN, List.map_cons, List.flatten_cons, hro, newSourceIds_append]
        simp [List.append_assoc]

theorem buildLoopF_edges_len (fuel : Nat) :
    ∀ (pending nodes : List QueryStage) (edges : List Edge)
      (N : List QueryStage) (E : List Edge),
      loopMeasure pending ≤ fuel →
      buildLoopF fuel pending nodes edges = .ok (N, E) →
      E.length = edges.length + ((pending.map readsOf).flatten).length := by
  induction fuel with
  | zero =>
    intro pending nodes edges N E hm hb
    cases pending with
    | nil =>
      simp only [buildLoopF, Except.ok.injEq, Prod.mk.injEq] at hb
      simp [← hb.2]
    | cons n rest => simp [loopMeasure_cons] at hm
  | succ fuel ih =>
    intro pending nodes edges N E hm hb
    cases pending with
    | nil =>
      simp only [buildLoopF, Except.ok.injEq, Prod.mk.injEq] at hb
      simp [← hb.2]
    | cons n rest =>
      simp only [buildLoopF] at hb
      split at hb
      · exact absurd hb (by simp)
      · rename_i reads hg
        have hro : readsOf n = reads := by simp [readsOf, hg]
        obtain ⟨hg1, _⟩ := addReads_spec n reads nodes edges
        have hlen : (addReads n reads nodes edges).2.2.length ≤ reads.length := by
          rw [hg1]; exact newSourceIds_length_le _ _
        have hm2 : loopMeasure
            (rest ++ (addReads n reads nodes edges).2.2.map mkGhost) ≤ fuel := by
          rw [loopMeasure_append, loopMeasure_map_mkGhost]
          rw [loopMeasure_cons, hro] at hm
          omega
        have hE := ih _ _ _ N E hm2 hb
        have hflat : ((rest ++ (addReads n reads nodes edges).2.2.map
              mkGhost).map readsOf).flatten = (rest.map readsOf).flatten := by
          rw [List.map_append, List.flatten_append, flatten_reads_map_mkGhost]
          simp
        rw [hflat, addReads_edges_len] at hE
        rw [hE, List.map_cons, List.flatten_cons, hro]
        simp; omega

theorem edgeClosed_append (e : Edge) (nodes more : List QueryStage)
    (h : edgeClosed e nodes) : edgeClosed e (nodes ++ more) := by
  obtain ⟨⟨f, hf, hfm⟩, ht⟩ := h
  refine ⟨⟨f, hf, ?_⟩, ?_⟩
  · rw [List.map_append]; exact List.mem_append_left _ hfm
  · rw [List.map_append]; exact List.mem_append_left _ ht

theorem loopMeasure_step (n : QueryStage) (rest nodes : List QueryStage)
    (edges : List Edge) (reads : List String) (fuel : Nat)
    (hg : getReads n = .ok reads)
    (hm : loopMeasure (n :: rest) ≤ fuel + 1) :
    loopMeasure (rest ++ (addReads n reads nodes edges).2.2.map mkGhost)
      ≤ fuel := by
  obtain ⟨hg1, _⟩ := addReads_spec n reads nodes edges
  have hro : readsOf n = reads := by simp [readsOf, hg]
  have hlen : (addReads n reads nodes edges).2.2.length ≤ reads.length := by
    rw [hg1]; exact newSourceIds_length_le _ _
  rw [loopMeasure_append, loopMeasure_map_mkGhost]
  rw [loopMeasure_cons, hro] at hm
  omega

theorem buildLoopF_edges_mem (fuel : Nat) :
    ∀ (pending nodes : List QueryStage) (edges : List Edge)
      (N : List QueryStage) (E : List Edge),
      loopMeasure pending ≤ fuel →
      buildLoopF fuel pending nodes edges = .ok (N, E) →
      (∀ n ∈ pending, n.id ∈ nodes.map QueryStage.id) →
      (∀ e ∈ edges, edgeClosed e nodes) →
      ∀ e ∈ E, edgeClosed e N := by
  induction fuel with
  | zero =>
    intro pending nodes edges N E hm hb hp he
    cases pending with
    | nil =>
      simp only [buildLoopF, Except.ok.injEq, Prod.mk.injEq] at hb
      intro e hmem
      rw [← hb.1]
      exact he e (hb.2 ▸ hmem)
    | cons n rest => simp [loopMeasure_cons] at hm
  | succ fuel ih =>
    intro pending nodes edges N E hm hb hp he
    cases pending with
    | nil =>
      simp only [buildLoopF, Except.ok.injEq, Prod.mk.injEq] at hb
      intro e hmem
      rw [← hb.1]
      exact he e (hb.2 ▸ hmem)
    | cons n rest =>
      simp only [buildLoopF] at hb
      split at hb
      · exact absurd hb (by simp)
      · rename_i reads hg
        obtain ⟨hg1, hn1⟩ := addReads_spec n reads nodes edges
        apply ih _ _ _ N E (loopMeasure_step n rest nodes edges reads fuel hg hm)
          hb
        · intro m hmem
          rcases List.mem_append.1 hmem with hmem | hmem
          · exact mem_ids_addReads _ _ _ _ _
              (hp m (List.mem_cons_of_mem _ hmem))
          · obtain ⟨g, hgmem, rfl⟩ := List.mem_map.1 hmem
            rw [hn1, List.map_append, mkGhost_id]
            refine List.mem_append_right _ ?_
            rw [map_id_map_mkGhost]
            rw [hg1] at hgmem
            exact hgmem
        · intro e hmem
          rcases addReads_edges_mem n reads nodes edges e hmem with
            h | ⟨ht, _, f, hf, hfm⟩
          · rw [hn1]
            exact edgeClosed_append e nodes _ (he e h)
          · refine ⟨⟨f, hf, hfm⟩, ?_⟩
            rw [ht]
            exact mem_ids_addReads _ _ _ _ _
              (hp n (List.mem_cons_self _ _))

/-- The fuel given to `buildLoopF` by `buildLoop` is only a termination
device: any two sufficient fuels yield the same result, so the zero-fuel
branch is unreachable from the entry point. -/
theorem buildLoopF_fuel (fuel₁ : Nat) :
    ∀ (fuel₂ : Nat) (pending nodes : List QueryStage) (edges : List Edge),
      loopMeasure pending ≤ fuel₁ → loopMeasure pending ≤ fuel₂ →
      buildLoopF fuel₁ pending nodes edges =
        buildLoopF fuel₂ pending nodes edges := by
  induction fuel₁ with
  | zero =>
    intro fuel₂ pending nodes edges h1 h2
    cases pending with
    | nil => cases fuel₂ <;> rfl
    | cons n rest => simp [loopMeasure_cons] at h1
  | succ fuel ih =>
    intro fuel₂ pending nodes edges h1 h2
    cases pending with
    | nil => cases fuel₂ <;> rfl
    | cons n rest =>
      cases fuel₂ with
      | zero => simp [loopMeasure_cons] at h2
      | succ fuel₂ =>
        simp only [buildLoopF]
        cases hg : getReads n with
        | error err => simp [hg]
        | ok reads =>
          simp only [hg]
          exact ih fuel₂ _ _ _
            (loopMeasure_step n rest nodes edges reads fuel hg h1)
            (loopMeasure_step n rest nodes edges reads fuel₂ hg h2)

/-! `getReads` only throws on a READ step with no FROM substep
(`stageSafe` rules that out), and ghost stages are always safe. -/

theorem splitOnSpaceAux_length_pos (cs : List Char) :
    ∀ (cur : List Char), 1 ≤ (splitOnSpaceAux cs cur).length := by
  induction cs with
  | nil => intro cur; simp [splitOnSpaceAux]
  | cons c cs ih =>
    intro cur
    by_cases hc : c = ' '
    · simp only [splitOnSpaceAux, if_pos hc, List.length_cons]
      omega
    · simp only [splitOnSpaceAux, if_neg hc]
      exact ih _

theorem splitOnSpaceAux_length_two (cs : List Char) :
    ∀ (cur : List Char), ' ' ∈ cs → 2 ≤ (splitOnSpaceAux cs cur).length := by
  induction cs with
  | nil => intro cur h; simp at h
  | cons c cs ih =>
    intro cur h
    by_cases hc : c = ' '
    · simp only [splitOnSpaceAux, if_pos hc, List.length_cons]
      have := splitOnSpaceAux_length_pos cs []
      omega
    · simp only [splitOnSpaceAux, if_neg hc]
      apply ih
      rcases List.mem_cons.1 h with h | h
      · exact absurd h.symm hc
      · exact h

theorem space_mem_of_from (ss : String)
    (h : strHasPrefix ss "FROM " = true) : ' ' ∈ ss.data := by
  rw [strHasPrefix] at h
  obtain ⟨t, ht⟩ := List.isPrefixOf_iff_prefix.1 h
  rw [← ht]
  exact List.mem_append_left _ (by decide)

theorem readFromStep_ok (step : QueryStep)
    (h : (step.substeps.find?
            (fun ss => strHasPrefix ss "FROM ")).isSome = true) :
    ∃ v, readFromStep step = .ok v := by
  obtain ⟨ss, hss⟩ := Option.isSome_iff_exists.1 h
  have hpre : strHasPrefix ss "FROM " = true := by
    have := List.find?_some hss; simpa using this
  have hlen : 2 ≤ (splitOnSpace ss).length :=
    splitOnSpaceAux_length_two _ _ (space_mem_of_from ss hpre)
  have hget : (splitOnSpace ss)[1]?.isSome = true := by
    rw [List.getElem?_eq_getElem (by omega)]; rfl
  obtain ⟨item, hitem⟩ := Option.isSome_iff_exists.1 hget
  exact ⟨if strHasPrefix item "__" then none else some item,
    by simp [readFromStep, hss, hitem]⟩

theorem mapReadSteps_ok (steps : List QueryStep)
    (h : ∀ step ∈ steps,
      (step.substeps.find?
        (fun ss => strHasPrefix ss "FROM ")).isSome = true) :
    ∃ l, mapReadSteps steps = .ok l := by
  induction steps with
  | nil => exact ⟨[], rfl⟩
  | cons s ss ih =>
    obtain ⟨v, hv⟩ := readFromStep_ok s (h s (List.mem_cons_self _ _))
    obtain ⟨l, hl⟩ := ih (fun t ht => h t (List.mem_cons_of_mem _ ht))
    exact ⟨v :: l, by simp [mapReadSteps, hv, hl]⟩

theorem getReads_ok_of_safe (s : QueryStage) (h : stageSafe s = true) :
    ∃ l, getReads s = .ok l := by
  cases hst : s.steps with
  | none => exact ⟨[], by simp [getReads, hst]⟩
  | some steps =>
    have hall : ∀ step ∈ steps.filter (fun st => st.kind == "READ"),
        (step.substeps.find?
          (fun ss => strHasPrefix ss "FROM ")).isSome = true := by
      intro step hmem
      obtain ⟨hmem2, hkind⟩ := List.mem_filter.1 hmem
      rw [stageSafe, hst] at h
      simp only [Option.getD_some] at h
      have hstep := List.all_eq_true.1 h step hmem2
      rw [Bool.or_eq_true] at hstep
      rcases hstep with h1 | h1
      · rw [bne_iff_ne] at h1
        exact absurd (beq_iff_eq.1 hkind) h1
      · exact h1
    obtain ⟨l, hl⟩ := mapReadSteps_ok _ hall
    exact ⟨(l.filterMap id).filter (fun t => t ≠ "") ++ s.inputStages.getD [],
      by simp [getReads, hst, hl]⟩

theorem buildLoopF_ok (fuel : Nat) :
    ∀ (pending nodes : List QueryStage) (edges : List Edge),
      loopMeasure pending ≤ fuel →
      (∀ n ∈ pending, stageSafe n = true) →
      ∃ NE, buildLoopF fuel pending nodes edges = .ok NE := by
  induction fuel with
  | zero =>
    intro pending nodes edges hm hs
    cases pending with
    | nil => exact ⟨(nodes, edges), rfl⟩
    | cons n rest => simp [loopMeasure_cons] at hm
  | succ fuel ih =>
    intro pending nodes edges hm hs
    cases pending with
    | nil => exact ⟨(nodes, edges), rfl⟩
    | cons n rest =>
      obtain ⟨reads, hg⟩ :=
        getReads_ok_of_safe n (hs n (List.mem_cons_self _ _))
      simp only [buildLoopF, hg]
      apply ih _ _ _ (loopMeasure_step n rest nodes edges reads fuel hg hm)
      intro m hmem
      rcases List.mem_append.1 hmem with hmem | hmem
      · exact hs m (List.mem_cons_of_mem _ hmem)
      · obtain ⟨g, _, rfl⟩ := List.mem_map.1 hmem
        exact stageSafe_mkGhost g


/-! Lookup behaviour of `setExtra` and preservation facts of enrichment. -/

theorem find_map_replace (k k' : String) (v : DisplayVal) (h : k' ≠ k) :
    ∀ (l : List (String × DisplayVal)),
      (l.map (fun p => if p.1 == k then (k, v) else p)).find?
          (fun p => p.1 == k') =
        l.find? (fun p => p.1 == k') := by
  intro l
  induction l with
  | nil => rfl
  | cons p rest ih =>
    by_cases hp : (p.1 == k) = true
    · have hp2 : p.1 = k := beq_iff_eq.1 hp
      rw [List.map_cons, if_pos hp]
      rw [List.find?_cons_of_neg _ (by simp [Ne.symm h]),
        List.find?_cons_of_neg _ (by simp [hp2, Ne.symm h])]
      exact ih
    · rw [List.map_cons, if_neg hp]
      by_cases hpk : (p.1 == k') = true
      · rw [List.find?_cons_of_pos _ (by exact hpk), List.find?_cons_of_pos _ (by exact hpk)]
      · rw [List.find?_cons_of_neg _ (by exact hpk), List.find?_cons_of_neg _ (by exact hpk)]
        exact ih

theorem find_append_single_ne (k k' : String) (v : DisplayVal) (h : k' ≠ k) :
    ∀ (l : List (String × DisplayVal)),
      (l ++ [(k, v)]).find? (fun p => p.1 == k') =
        l.find? (fun p => p.1 == k') := by
  intro l
  induction l with
  | nil =>
    rw [List.nil_append, List.find?_cons_of_neg _ (by simp [Ne.symm h])]
  | cons p rest ih =>
    rw [List.cons_append]
    by_cases hpk : (p.1 == k') = true
    · rw [List.find?_cons_of_pos _ (by exact hpk), List.find?_cons_of_pos _ (by exact hpk)]
    · rw [List.find?_cons_of_neg _ (by exact hpk), List.find?_cons_of_neg _ (by exact hpk)]
      exact ih

theorem find_setExtra_ne (k k' : String) (v : DisplayVal)
    (h : k' ≠ k) (l : List (String × DisplayVal)) :
    (setExtra k v l).find? (fun p => p.1 == k') =
      l.find? (fun p => p.1 == k') := by
  rw [setExtra]
  by_cases ha : l.any (fun p => p.1 == k) = true
  · rw [if_pos ha]; exact find_map_replace k k' v h l
  · rw [if_neg ha]; exact find_append_single_ne k k' v h l

theorem find_map_replace_self (k : String) (v : DisplayVal) :
    ∀ (l : List (String × DisplayVal)),
      l.any (fun p => p.1 == k) = true →
      (l.map (fun p => if p.1 == k then (k, v) else p)).find?
          (fun p => p.1 == k) = some (k, v) := by
  intro l
  induction l with
  | nil => intro ha; simp at ha
  | cons p rest ih =>
    intro ha
    by_cases hp : (p.1 == k) = true
    · rw [List.map_cons, if_pos hp]
      rw [List.find?_cons_of_pos _ (by simp)]
    · rw [List.map_cons, if_neg hp, List.find?_cons_of_neg _ (by exact hp)]
      apply ih
      simp only [List.any_cons, hp, Bool.false_or] at ha
      exact ha

theorem find_append_single_self (k : String) (v : DisplayVal) :
    ∀ (l : List (String × DisplayVal)),
      l.any (fun p => p.1 == k) = false →
      (l ++ [(k, v)]).find? (fun p => p.1 == k) = some (k, v) := by
  intro l
  induction l with
  | nil => intro _; rw [List.nil_append, List.find?_cons_of_pos _ (by simp)]
  | cons p rest ih =>
    intro ha
    simp only [List.any_cons, Bool.or_eq_false_iff] at ha
    rw [List.cons_append, List.find?_cons_of_neg _ (by simp [ha.1])]
    exact ih ha.2

theorem find_setExtra_self (k : String) (v : DisplayVal)
    (l : List (String × DisplayVal)) :
    (setExtra k v l).find? (fun p => p.1 == k) = some (k, v) := by
  rw [setExtra]
  by_cases ha : l.any (fun p => p.1 == k) = true
  · rw [if_pos ha]; exact find_map_replace_self k v l ha
  · rw [if_neg ha]
    exact find_append_single_self k v l (Bool.eq_false_iff.2 ha)

theorem improve_mkGhost (stats : Statistics) (g : String) :
    improveNodeInfo stats (mkGhost g) = mkGhost g := rfl

theorem improve_cases (stats : Statistics) (node : QueryStage) :
    improveNodeInfo stats node = node ∨
      ∃ l, improveNodeInfo stats node = { node with extra := l } := by
  rw [improveNodeInfo]
  split
  · split
    · right; exact ⟨_, rfl⟩
    · left; rfl
  · left; rfl

theorem improve_skip (stats : Statistics) (node : QueryStage)
    (h : jsNumber node.startMs = none ∨ jsNumber node.endMs = none ∨
         jsNumber stats.startTime = none ∨ jsNumber stats.endTime = none) :
    improveNodeInfo stats node = node := by
  rw [improveNodeInfo]
  split
  · split
    · rcases h with h | h | h | h <;> simp_all
    · rfl
  · rfl

theorem enrich_ids (stats : Statistics) (ns : List QueryStage) :
    (enrich stats ns).map QueryStage.id = ns.map QueryStage.id := by
  induction ns with
  | nil => rfl
  | cons n ns ih =>
    simp only [enrich, List.map_cons] at ih ⊢
    rw [ih]
    congr 1
    rcases improve_cases stats n with h | ⟨l, h⟩ <;> rw [h]

theorem enrich_length (stats : Statistics) (ns : List QueryStage) :
    (enrich stats ns).length = ns.length := by simp [enrich]

theorem enrich_append (stats : Statistics) (a b : List QueryStage) :
    enrich stats (a ++ b) = enrich stats a ++ enrich stats b := by
  simp [enrich]

theorem enrich_map_mkGhost (stats : Statistics) (gs : List String) :
    enrich stats (gs.map mkGhost) = gs.map mkGhost := by
  induction gs with
  | nil => rfl
  | cons g gs ih =>
    simp only [enrich, List.map_cons] at ih ⊢
    rw [improve_mkGhost, ih]

theorem edgeClosed_enrich (stats : Statistics) (e : Edge)
    (N : List QueryStage) (h : edgeClosed e N) :
    edgeClosed e (enrich stats N) := by
  obtain ⟨⟨f, hf, hfm⟩, ht⟩ := h
  refine ⟨⟨f, hf, ?_⟩, ?_⟩
  · rw [enrich_ids]; exact hfm
  · rw [enrich_ids]; exact ht

theorem construct_valid_eq (job : Job) (k : String) (stats : Statistics)
    (q : QueryInfo) (qp : List QueryStage)
    (hk : job.kind = some k) (hbq : strHasPrefix k "bigquery" = true)
    (hst : job.statistics = some stats) (hq : stats.query = some q)
    (hqp : q.queryPlan = some qp) :
    construct job =
      match buildLoop qp qp [] with
      | .error e => .error e
      | .ok res =>
        .ok { plan := job, nodes := enrich stats res.1, edges := res.2,
              isValid := true, log := [] } := by
  simp only [construct, hk, hbq, hst, hq, hqp, if_true]

theorem jsTruthy_of_valid (o : Option String)
    (h : validTimestamp o = true) : jsTruthy o = true := by
  cases o with
  | none => simp [validTimestamp] at h
  | some s =>
    simp only [validTimestamp, Bool.and_eq_true] at h
    simp only [jsTruthy]
    exact h.1

theorem color_compute (w r c : ℚ) :
    jsIndexOf [some w, some r, some c, some w]
        (jsMaxList [some w, some r, some c, some w]) =
      some (firstMaxIdx w r c) ∧ firstMaxIdx w r c < 3 := by
  have hml : jsMaxList [some w, some r, some c, some w] =
      some (max w (max r (max c w))) := by simp [jsMaxList, jsMax2]
  rcases le_or_lt r w with hrw | hrw
  · rcases le_or_lt c w with hcw | hcw
    · have hM : max w (max r (max c w)) = w := by
        rw [max_eq_right hcw, max_eq_right hrw, max_self]
      have hM2 : max (max (max w r) c) w = w := by
        rw [max_eq_left hrw, max_eq_left hcw, max_self]
      rw [hml, hM]
      simp only [jsIndexOf, firstMaxIdx, hM2, List.findIdx?_cons,
        List.findIdx_cons, beq_self_eq_true, cond_true, if_true]
      exact ⟨trivial, by omega⟩
    · have hcw2 : w ≤ c := le_of_lt hcw
      have hM : max w (max r (max c w)) = c := by
        rw [max_eq_left hcw2, max_eq_right (hrw.trans hcw2),
          max_eq_right hcw2]
      have hM2 : max (max (max w r) c) w = c := by
        rw [max_eq_left hrw, max_eq_right hcw2, max_eq_left hcw2]
      have h1 : (w == c) = false :=
        beq_eq_false_iff_ne.2 (ne_of_lt hcw)
      have h2 : (r == c) = false :=
        beq_eq_false_iff_ne.2 (ne_of_lt (lt_of_le_of_lt hrw hcw))
      rw [hml, hM]
      simp only [jsIndexOf, firstMaxIdx, hM2, List.findIdx?_cons,
        List.findIdx_cons, beq_self_eq_true, h1, h2, cond_true, cond_false,
        if_true, if_false, Bool.false_eq_true, Option.map_some]
      exact ⟨trivial, by omega⟩
  · rcases le_or_lt c r with hcr | hcr
    · have hwr : w ≤ r := le_of_lt hrw
      have hM : max w (max r (max c w)) = r := by
        rw [max_eq_left (max_le hcr hwr), max_eq_right hwr]
      have hM2 : max (max (max w r) c) w = r := by
        rw [max_eq_right hwr, max_eq_left hcr, max_eq_left hwr]
      have h1 : (w == r) = false :=
        beq_eq_false_iff_ne.2 (ne_of_lt hrw)
      rw [hml, hM]
      simp only [jsIndexOf, firstMaxIdx, hM2, List.findIdx?_cons,
        List.findIdx_cons, beq_self_eq_true, h1, cond_true, cond_false,
        if_true, if_false, Bool.false_eq_true, Option.map_some]
      exact ⟨trivial, by omega⟩
    · have hwc : w < c := hrw.trans hcr
      have hM : max w (max r (max c w)) = c := by
        rw [max_eq_left (le_of_lt hwc), max_eq_right (le_of_lt hcr),
          max_eq_right (le_of_lt hwc)]
      have hM2 : max (max (max w r) c) w = c := by
        rw [max_eq_right (le_of_lt hrw), max_eq_right (le_of_lt hcr),
          max_eq_left (le_of_lt hwc)]
      have h1 : (w == c) = false :=
        beq_eq_false_iff_ne.2 (ne_of_lt hwc)
      have h2 : (r == c) = false :=
        beq_eq_false_iff_ne.2 (ne_of_lt hcr)
      rw [hml, hM]
      simp only [jsIndexOf, firstMaxIdx, hM2, List.findIdx?_cons,
        List.findIdx_cons, beq_self_eq_true, h1, h2, cond_true, cond_false,
        if_true, if_false, Bool.false_eq_true, Option.map_some]
      exact ⟨trivial, by omega⟩

/-- C5: a job document missing `kind` yields an ok plan with `isValid =
false`, empty node and edge sets and the warning text; so does one whose
`kind` does not start with `bigquery`, and one whose statistics block has no
query-plan array; when all three validations pass and construction returns a
plan, that plan has `isValid = true`. -/
theorem validation_and_invalid_state (job : Job) :
    (job.kind = none →
      construct job = .ok (invalidPlan job "No plan document found in job.")) ∧
    (∀ k, job.kind = some k → strHasPrefix k "bigquery" = false →
      construct job = .ok (invalidPlan job
        ("Retrieved document is not of kind bigquery but of kind "
          ++ k ++ "."))) ∧
    (∀ k stats, job.kind = some k → strHasPrefix k "bigquery" = true →
      job.statistics = some stats →
      stats.query.bind (fun q2 => q2.queryPlan) = none →
      construct job = .ok (invalidPlan job
        ("No query found in job " ++ job.id))) ∧
    (∀ k stats q qp p, job.kind = some k → strHasPrefix k "bigquery" = true →
      job.statistics = some stats → stats.query = some q →
      q.queryPlan = some qp → construct job = .ok p →
      p.isValid = true) := by
  refine ⟨?_, ?_, ?_, ?_⟩
  · intro h
    simp [construct, h, invalidPlan]
  · intro k hk hbq
    simp [construct, hk, hbq, invalidPlan]
  · intro k stats hk hbq hst hnone
    cases hq : stats.query with
    | none => simp [construct, hk, hbq, hst, hq, invalidPlan]
    | some q2 =>
      rw [hq, Option.some_bind] at hnone
      simp [construct, hk, hbq, hst, hq, hnone, invalidPlan]
  · intro k stats q qp p hk hbq hst hq hqp hc
    rw [construct_valid_eq job k stats q qp hk hbq hst hq hqp] at hc
    cases hbl : buildLoop qp qp [] with
    | error e => rw [hbl] at hc; exact absurd hc (by simp)
    | ok res =>
      rw [hbl] at hc
      simp only [Except.ok.injEq] at hc
      rw [← hc]

/-- C4 counterexample: the claim says construction never throws, naming a
document with an absent statistics block and a READ step without a FROM
substep as examples; on both of those concrete inputs the constructor
throws (`TypeError` on `this.plan.statistics.query`, respectively on
`readSubstep.split`), modelled as `Except.error`. -/
theorem construction_throws_cex :
    construct exJobNoStats = .error () ∧
    construct exJobBadRead = .error () := ⟨rfl, rfl⟩

/-- C4 (amended): construction completes without throwing on every document
that either fails a validation before `statistics.query` is dereferenced, or
has a statistics block and only READ steps containing a FROM substep
(`jobSafe`); each such failure path degrades to an `isValid = false` plan or
a stage without derived fields rather than an exception. -/
theorem construction_total_when_safe (job : Job) (h : jobSafe job = true) :
    ∃ p, construct job = .ok p := by
  cases hk : job.kind with
  | none =>
    exact ⟨invalidPlan job "No plan document found in job.",
      by simp [construct, hk, invalidPlan]⟩
  | some k =>
    by_cases hbq : strHasPrefix k "bigquery" = true
    · cases hst : job.statistics with
      | none =>
        simp only [jobSafe, hk, hbq, hst, Bool.not_true, Bool.false_or] at h
        exact absurd h (by simp)
      | some stats =>
        cases hq : stats.query with
        | none =>
          exact ⟨invalidPlan job ("No query found in job " ++ job.id),
            by simp [construct, hk, hbq, hst, hq, invalidPlan]⟩
        | some q =>
          cases hqp : q.queryPlan with
          | none =>
            exact ⟨invalidPlan job ("No query found in job " ++ job.id),
              by simp [construct, hk, hbq, hst, hq, hqp, invalidPlan]⟩
          | some qp =>
            have hall : ∀ n ∈ qp, stageSafe n = true := by
              simp only [jobSafe, hk, hbq, hst, hq, hqp, Bool.not_true,
                Bool.false_or] at h
              exact List.all_eq_true.1 h
            obtain ⟨NE, hNE⟩ := buildLoopF_ok (loopMeasure qp) qp qp []
              (le_refl _) hall
            refine ⟨{ plan := job, nodes := enrich stats NE.1, edges := NE.2, isValid := true, log := [] }, ?_⟩
            rw [construct_valid_eq job k stats q qp hk hbq hst hq hqp,
              buildLoop, hNE]
    · have hbq2 : strHasPrefix k "bigquery" = false := Bool.eq_false_iff.2 hbq
      exact ⟨invalidPlan job
          ("Retrieved document is not of kind bigquery but of kind "
            ++ k ++ "."),
        by simp [construct, hk, hbq2, invalidPlan]⟩

/-- C7: for a stage any of whose four timestamps (stage `startMs`/`endMs`,
job `startTime`/`endTime`) is missing or not a valid number, `improveNodeInfo`
returns the stage unchanged (no derived fields, no exception — it is a total
function); ghost nodes fall into this path. -/
theorem enrichment_skip_invalid (stats : Statistics) (node : QueryStage) :
    ((jsNumber node.startMs = none ∨ jsNumber node.endMs = none ∨
      jsNumber stats.startTime = none ∨ jsNumber stats.endTime = none) →
      improveNodeInfo stats node = node) ∧
    (∀ g, improveNodeInfo stats (mkGhost g) = mkGhost g) :=
  ⟨improve_skip stats node, fun g => improve_mkGhost stats g⟩

/-- C8: the chart row projection is exactly one row `(id, name, startDate,
endDate, null, 100, null)` per node whose `isExternal` is absent or false,
in node order, and no row for any `isExternal = true` node. -/
theorem gantt_rows_exclude_external (nodes : List QueryStage) :
    ganttRows nodes =
      (nodes.filter (fun n => n.isExternal != some true)).map ganttRow ∧
    (∀ row ∈ ganttRows nodes, row.duration = none ∧
      row.percentComplete = 100 ∧ row.dependencies = none) ∧
    (∀ n ∈ nodes, n.isExternal ≠ some true → ganttRow n ∈ ganttRows nodes) ∧
    (∀ row ∈ ganttRows nodes, ∃ n ∈ nodes,
      n.isExternal ≠ some true ∧ row = ganttRow n) := by
  have hfil : ∀ n : QueryStage,
      keepInGantt n = (n.isExternal != some true) := by
    intro n
    cases hx : n.isExternal with
    | none => simp [keepInGantt, hx]
    | some b => cases b <;> simp [keepInGantt, hx]
  have h1 : ganttRows nodes =
      (nodes.filter (fun n => n.isExternal != some true)).map ganttRow := by
    rw [ganttRows]
    congr 1
    exact List.filter_congr (fun n _ => hfil n)
  refine ⟨h1, ?_, ?_, ?_⟩
  · intro row hrow
    rw [h1] at hrow
    obtain ⟨n, _, rfl⟩ := List.mem_map.1 hrow
    exact ⟨rfl, rfl, rfl⟩
  · intro n hn hext
    rw [h1]
    exact List.mem_map_of_mem _ (List.mem_filter.2 ⟨hn, by simp [hext]⟩)
  · intro row hrow
    rw [h1] at hrow
    obtain ⟨n, hn, rfl⟩ := List.mem_map.1 hrow
    obtain ⟨hn2, hcond⟩ := List.mem_filter.1 hn
    exact ⟨n, hn2, by simpa using hcond, rfl⟩

/-- C9 counterexample: `exNodeWaitOnly` has a truthy, nonzero average-wait
value (`'5'`), yet `colorForMaxTime` returns `undefined` (`none`) rather
than an entry of the 4-color palette: its read/compute averages are absent,
`Number` gives NaN, `Math.max` gives NaN, and `indexOf(NaN)` is `-1`. -/
theorem color_undefined_cex :
    jsTruthy exNodeWaitOnly.waitMsAvg = true ∧
    jsNumber exNodeWaitOnly.waitMsAvg = some 5 ∧
    colorForMaxTime exNodeWaitOnly = none ∧
    (∀ c2 ∈ palette, colorForMaxTime exNodeWaitOnly ≠ some c2) := by
  refine ⟨rfl, by decide, rfl, by decide⟩

/-- C9 (amended): for a stage with a truthy `waitMsAvg` whose wait, read and
compute averages all convert to numbers, `colorForMaxTime` returns the
palette entry at the index of the first bucket of `[wait, read, compute,
wait]` attaining the maximum (write excluded, wait duplicated); a stage with
falsy `waitMsAvg` (no wait data) gets the fixed default color. -/
theorem color_palette_selection (node : QueryStage) (w r c : ℚ)
    (hw : jsTruthy node.waitMsAvg = true)
    (hnw : jsNumber node.waitMsAvg = some w)
    (hnr : jsNumber node.readMsAvg = some r)
    (hnc : jsNumber node.computeMsAvg = some c) :
    colorForMaxTime node = palette[firstMaxIdx w r c]? ∧
    firstMaxIdx w r c < 3 ∧
    (∀ node2 : QueryStage, jsTruthy node2.waitMsAvg = false →
      colorForMaxTime node2 = some "#2290FF") := by
  obtain ⟨hidx, hlt⟩ := color_compute w r c
  refine ⟨?_, hlt, ?_⟩
  · rw [colorForMaxTime, hw]
    simp only [if_true, hnw, hnr, hnc]
    rw [hidx]
  · intro node2 h2
    rw [colorForMaxTime, h2]
    simp

theorem readFromStep_no_underscore (step : QueryStep) (v : Option String)
    (h : readFromStep step = .ok v) :
    ∀ s2, v = some s2 → strHasPrefix s2 "__" = false := by
  rw [readFromStep] at h
  split at h
  · exact absurd h (by simp)
  · split at h
    · exact absurd h (by simp)
    · simp only [Except.ok.injEq] at h
      subst h
      intro s2 hs2
      rename_i item hitem
      by_cases hu : strHasPrefix item "__" = true
      · rw [if_pos hu] at hs2
        exact absurd hs2 (by simp)
      · rw [if_neg hu] at hs2
        simp only [Option.some.injEq] at hs2
        rw [← hs2]
        exact Bool.eq_false_iff.2 hu

theorem mapReadSteps_no_underscore (steps : List QueryStep) :
    ∀ (mapped : List (Option String)), mapReadSteps steps = .ok mapped →
      ∀ v ∈ mapped, ∀ s2, v = some s2 → strHasPrefix s2 "__" = false := by
  induction steps with
  | nil =>
    intro mapped h
    simp only [mapReadSteps, Except.ok.injEq] at h
    subst h
    intro v hv
    exact absurd hv (List.not_mem_nil v)
  | cons st rest ih =>
    intro mapped h
    rw [mapReadSteps] at h
    cases hrf : readFromStep st with
    | error e =>
      rw [hrf] at h
      exact absurd h (by simp)
    | ok v0 =>
      rw [hrf] at h
      cases hmr : mapReadSteps rest with
      | error e =>
        rw [hmr] at h
        exact absurd h (by simp)
      | ok vs =>
        rw [hmr] at h
        simp only [Except.ok.injEq] at h
        subst h
        intro v hv s2 hs2
        rcases List.mem_cons.1 hv with rfl | hv
        · exact readFromStep_no_underscore st v hrf s2 hs2
        · exact ih vs hmr v hv s2 hs2

/-- C3 counterexample: a stage whose `inputStages` holds the
double-underscore identifier `'__in'` (and no FROM reads) still produces a
ghost node and an edge from that identifier — `inputStages` entries are
never filtered by prefix. -/
theorem double_underscore_inputStages_cex :
    construct exJobUnderscore = .ok { plan := exJobUnderscore, nodes := [exStageUnderscore, mkGhost "__in"], edges := [{ fromId := some "__in", toId := "s1", outputName := "S1" }], isValid := true, log := [] } ∧
    strHasPrefix "__in" "__" = true ∧
    (mkGhost "__in").isExternal = some true := by
  refine ⟨?_, rfl, rfl⟩
  rfl

/-- C3 (amended): a double-underscore identifier appearing as the token
after `'FROM '` in a read substep is never among a stage's extracted reads;
every double-underscore read therefore comes from `inputStages`, whose
entries are always included (for stages that have a steps list) regardless
of prefix. -/
theorem double_underscore_reads (node : QueryStage) (res : List String)
    (h : getReads node = .ok res) :
    (∀ r ∈ res, strHasPrefix r "__" = true →
      r ∈ node.inputStages.getD []) ∧
    (∀ steps, node.steps = some steps →
      ∀ r ∈ node.inputStages.getD [], r ∈ res) := by
  cases hst : node.steps with
  | none =>
    simp only [getReads, hst, Except.ok.injEq] at h
    constructor
    · intro r hr
      rw [← h] at hr
      exact absurd hr (List.not_mem_nil r)
    · intro steps hsteps
      exact absurd hsteps (by simp)
  | some steps =>
    simp only [getReads, hst] at h
    cases hmap : mapReadSteps (steps.filter (fun s3 => s3.kind == "READ")) with
    | error e2 =>
      rw [hmap] at h
      exact absurd h (by simp)
    | ok mapped =>
      rw [hmap] at h
      simp only [Except.ok.injEq] at h
      subst h
      constructor
      · intro r hr hpre
        rcases List.mem_append.1 hr with hr | hr
        · exfalso
          obtain ⟨hr2, _⟩ := List.mem_filter.1 hr
          obtain ⟨v, hv, hvr⟩ := List.mem_filterMap.1 hr2
          have hfalse := mapReadSteps_no_underscore _ mapped hmap v hv r hvr
          rw [hfalse] at hpre
          exact Bool.false_ne_true hpre
        · exact hr
      · intro steps2 _ r hr
        exact List.mem_append_right _ hr

/-- C1: for a well-formed document adopted as a valid plan, the node set is
the original stages (enriched in place) followed by exactly one ghost node
per distinct referenced source identifier matching no original stage id, in
first-reference order; each ghost has id = name = the source identifier,
`isExternal = true` and no steps; a source referenced by several consuming
stages yields only one ghost (`Nodup`). -/
theorem ghost_node_synthesis (job : Job) (k : String) (stats : Statistics)
    (q : QueryInfo) (qp : List QueryStage) (p : BqQueryPlan)
    (hk : job.kind = some k) (hbq : strHasPrefix k "bigquery" = true)
    (hst : job.statistics = some stats) (hq : stats.query = some q)
    (hqp : q.queryPlan = some qp) (hc : construct job = .ok p) :
    p.nodes = enrich stats qp ++ (ghostIds qp).map mkGhost ∧
    p.nodes.length = qp.length + (ghostIds qp).length ∧
    (ghostIds qp).Nodup ∧
    (∀ r2, r2 ∈ ghostIds qp ↔
      (r2 ∈ allReads qp ∧ r2 ∉ qp.map QueryStage.id)) ∧
    (ghostIds qp).toFinset = ((allReads qp).filter (fun r2 => !((qp.map QueryStage.id).contains r2))).toFinset ∧
    (∀ gid ∈ ghostIds qp, (mkGhost gid).id = gid ∧ (mkGhost gid).name = gid ∧ (mkGhost gid).isExternal = some true ∧ (mkGhost gid).steps = none) := by
  rw [construct_valid_eq job k stats q qp hk hbq hst hq hqp] at hc
  cases hbl : buildLoop qp qp [] with
  | error e => rw [hbl] at hc; exact absurd hc (by simp)
  | ok res =>
    obtain ⟨N, E⟩ := res
    rw [hbl] at hc
    simp only [Except.ok.injEq] at hc
    rw [buildLoop] at hbl
    have hN := buildLoopF_nodes (loopMeasure qp) qp qp [] N E (le_refl _) hbl
    have hnodes : p.nodes = enrich stats qp ++ (ghostIds qp).map mkGhost := by
      rw [← hc, hN, enrich_append, enrich_map_mkGhost]
      rfl
    refine ⟨hnodes, ?_, (newSourceIds_nodup _ _).1, ?_, ?_, ?_⟩
    · rw [hnodes, List.length_append, List.length_map, enrich_length]
    · intro r2
      rw [ghostIds, mem_newSourceIds]
    · ext r2
      simp only [List.mem_toFinset, List.mem_filter, ghostIds,
        mem_newSourceIds, allReads, Bool.not_eq_true', List.contains,
        List.elem_eq_mem, decide_eq_false_iff_not]
    · intro gid _
      exact ⟨rfl, rfl, rfl, rfl⟩

/-- C2: after construction of a valid plan, the edge count equals the total
number of extracted (read ∪ inputStages) reference pairs across all real
stages, and every edge's endpoints resolve to nodes of the final node set. -/
theorem edge_count_and_closure (job : Job) (k : String) (stats : Statistics)
    (q : QueryInfo) (qp : List QueryStage) (p : BqQueryPlan)
    (hk : job.kind = some k) (hbq : strHasPrefix k "bigquery" = true)
    (hst : job.statistics = some stats) (hq : stats.query = some q)
    (hqp : q.queryPlan = some qp) (hc : construct job = .ok p) :
    p.edges.length = (allReads qp).length ∧
    ∀ e ∈ p.edges, edgeClosed e p.nodes := by
  rw [construct_valid_eq job k stats q qp hk hbq hst hq hqp] at hc
  cases hbl : buildLoop qp qp [] with
  | error e => rw [hbl] at hc; exact absurd hc (by simp)
  | ok res =>
    obtain ⟨N, E⟩ := res
    rw [hbl] at hc
    simp only [Except.ok.injEq] at hc
    rw [buildLoop] at hbl
    have hlen := buildLoopF_edges_len (loopMeasure qp) qp qp [] N E
      (le_refl _) hbl
    have hmem := buildLoopF_edges_mem (loopMeasure qp) qp qp [] N E
      (le_refl _) hbl
      (fun n hn => List.mem_map_of_mem _ hn)
      (fun e he => absurd he (List.not_mem_nil e))
    constructor
    · rw [← hc]
      simp only [List.length_nil, Nat.zero_add] at hlen
      exact hlen
    · intro e he
      rw [← hc] at he ⊢
      exact edgeClosed_enrich stats e N (hmem e he)

/-- C6: for a stage whose `startMs`/`endMs` and the job-level
`startTime`/`endTime` are all numerically valid timestamps, enrichment
stores duration = end − start, start percentage
= 100 × (start − jobStart) / (jobEnd − jobStart) and the analogous end
percentage under the display keys. -/
theorem timing_enrichment (stats : Statistics) (node : QueryStage)
    (s e js je : ℚ)
    (h1 : validTimestamp node.startMs = true)
    (h2 : validTimestamp node.endMs = true)
    (h3 : validTimestamp stats.startTime = true)
    (h4 : validTimestamp stats.endTime = true)
    (hs : jsNumber node.startMs = some s)
    (he : jsNumber node.endMs = some e)
    (hjs : jsNumber stats.startTime = some js)
    (hje : jsNumber stats.endTime = some je) :
    getDisplay (improveNodeInfo stats node) "durationMs  " =
      some (.numFmt (e - s)) ∧
    getDisplay (improveNodeInfo stats node) "start %     " =
      some (.pct ((100 * (s - js)) / (je - js))) ∧
    getDisplay (improveNodeInfo stats node) "end %       " =
      some (.pct ((100 * (e - js)) / (je - js))) := by
  have ht1 := jsTruthy_of_valid _ h1
  have ht2 := jsTruthy_of_valid _ h2
  have himp : improveNodeInfo stats node = { node with extra := (
      setExtra "end %       " (.pct ((100 * (e - js)) / (je - js))) <|
      setExtra "start %     " (.pct ((100 * (s - js)) / (je - js))) <|
      setExtra "endTime     " (.date e) <|
      setExtra "startTime   " (.date s) <|
      setExtra "write (ms)  "
        (.avgMax (jsNumber node.writeMsAvg) (jsNumber node.writeMsMax)) <|
      setExtra "compute (ms)"
        (.avgMax (jsNumber node.computeMsAvg) (jsNumber node.computeMsMax)) <|
      setExtra "read (ms)   "
        (.avgMax (jsNumber node.readMsAvg) (jsNumber node.readMsMax)) <|
      setExtra "wait (ms)   "
        (.avgMax (jsNumber node.waitMsAvg) (jsNumber node.waitMsMax)) <|
      setExtra "durationMs  " (.numFmt (e - s)) node.extra) } := by
    rw [improveNodeInfo, ht1, ht2]
    simp only [Bool.and_self, if_true, he, hs, hjs, hje]
  rw [himp]
  refine ⟨?_, ?_, ?_⟩
  · simp only [getDisplay]
    rw [find_setExtra_ne "end %       " "durationMs  " _ (by decide),
        find_setExtra_ne "start %     " "durationMs  " _ (by decide),
        find_setExtra_ne "endTime     " "durationMs  " _ (by decide),
        find_setExtra_ne "startTime   " "durationMs  " _ (by decide),
        find_setExtra_ne "write (ms)  " "durationMs  " _ (by decide),
        find_setExtra_ne "compute (ms)" "durationMs  " _ (by decide),
        find_setExtra_ne "read (ms)   " "durationMs  " _ (by decide),
        find_setExtra_ne "wait (ms)   " "durationMs  " _ (by decide),
        find_setExtra_self]
    rfl
  · simp only [getDisplay]
    rw [find_setExtra_ne "end %       " "start %     " _ (by decide),
        find_setExtra_self]
    rfl
  · simp only [getDisplay]
    rw [find_setExtra_self]
    rfl

/-- C10: `improveNodeInfo` changes no pre-existing stage field (identifier,
name, steps, inputStages, raw timestamps, raw timing fields, isExternal),
touches only the nine fixed display keys of the property bag, and the
enrichment pass is an in-place map over the node list that preserves node
count and identifiers and passes the edge list through untouched. -/
theorem enrichment_frame (stats : Statistics) (node : QueryStage) :
    ((improveNodeInfo stats node).id = node.id ∧
      (improveNodeInfo stats node).name = node.name ∧
      (improveNodeInfo stats node).status = node.status ∧
      (improveNodeInfo stats node).steps = node.steps ∧
      (improveNodeInfo stats node).inputStages = node.inputStages ∧
      (improveNodeInfo stats node).startMs = node.startMs ∧
      (improveNodeInfo stats node).endMs = node.endMs ∧
      (improveNodeInfo stats node).waitMsAvg = node.waitMsAvg ∧
      (improveNodeInfo stats node).waitMsMax = node.waitMsMax ∧
      (improveNodeInfo stats node).readMsAvg = node.readMsAvg ∧
      (improveNodeInfo stats node).readMsMax = node.readMsMax ∧
      (improveNodeInfo stats node).computeMsAvg = node.computeMsAvg ∧
      (improveNodeInfo stats node).computeMsMax = node.computeMsMax ∧
      (improveNodeInfo stats node).writeMsAvg = node.writeMsAvg ∧
      (improveNodeInfo stats node).writeMsMax = node.writeMsMax ∧
      (improveNodeInfo stats node).isExternal = node.isExternal) ∧
    (∀ k2, k2 ∉ displayKeys →
      getDisplay (improveNodeInfo stats node) k2 = getDisplay node k2) ∧
    (∀ ns : List QueryStage,
      (enrich stats ns).map QueryStage.id = ns.map QueryStage.id ∧
      (enrich stats ns).length = ns.length) ∧
    (∀ (job : Job) (k : String) (q : QueryInfo) (qp N : List QueryStage)
        (E : List Edge),
      job.kind = some k → strHasPrefix k "bigquery" = true →
      job.statistics = some stats → stats.query = some q →
      q.queryPlan = some qp → buildLoop qp qp [] = .ok (N, E) →
      construct job = .ok { plan := job, nodes := enrich stats N, edges := E, isValid := true, log := [] }) := by
  refine ⟨?_, ?_, ?_, ?_⟩
  · rcases improve_cases stats node with h | ⟨l, h⟩ <;> rw [h] <;>
      exact ⟨rfl, rfl, rfl, rfl, rfl, rfl, rfl, rfl, rfl, rfl, rfl, rfl,
        rfl, rfl, rfl, rfl⟩
  · intro k2 hk2
    have hks : k2 ≠ "durationMs  " ∧ k2 ≠ "wait (ms)   " ∧
        k2 ≠ "read (ms)   " ∧ k2 ≠ "compute (ms)" ∧ k2 ≠ "write (ms)  " ∧
        k2 ≠ "startTime   " ∧ k2 ≠ "endTime     " ∧ k2 ≠ "start %     " ∧
        k2 ≠ "end %       " := by
      simp only [displayKeys, List.mem_cons, List.not_mem_nil, or_false,
        not_or] at hk2
      exact hk2
    obtain ⟨hd1, hd2, hd3, hd4, hd5, hd6, hd7, hd8, hd9⟩ := hks
    rw [improveNodeInfo]
    split
    · split
      · simp only [getDisplay]
        rw [find_setExtra_ne "end %       " k2 _ hd9,
            find_setExtra_ne "start %     " k2 _ hd8,
            find_setExtra_ne "endTime     " k2 _ hd7,
            find_setExtra_ne "startTime   " k2 _ hd6,
            find_setExtra_ne "write (ms)  " k2 _ hd5,
            find_setExtra_ne "compute (ms)" k2 _ hd4,
            find_setExtra_ne "read (ms)   " k2 _ hd3,
            find_setExtra_ne "wait (ms)   " k2 _ hd2,
            find_setExtra_ne "durationMs  " k2 _ hd1]
      · rfl
    · rfl
  · intro ns
    exact ⟨enrich_ids stats ns, enrich_length stats ns⟩
  · intro job k q qp N E hk hbq hst hq hqp hbl
    rw [construct_valid_eq job k stats q qp hk hbq hst hq hqp, hbl]

/-- Witness for C1 at `exJobOk`: two real stages, three references, one
distinct new source id (`tbl.a`), so one ghost node. -/
theorem ghost_node_synthesis_witness :
    exP.nodes.length = exQp.length + (ghostIds exQp).length ∧
    (ghostIds exQp).Nodup := by
  have h := ghost_node_synthesis exJobOk "bigquery#job" exStats
    { queryPlan := some exQp } exQp exP rfl (by decide) rfl rfl rfl (by rfl)
  exact ⟨h.2.1, h.2.2.1⟩

/-- Witness for C2 at `exJobOk`: three reference pairs, three edges. -/
theorem edge_count_and_closure_witness :
    exP.edges.length = (allReads exQp).length := by
  exact (edge_count_and_closure exJobOk "bigquery#job" exStats
    { queryPlan := some exQp } exQp exP rfl (by decide) rfl rfl rfl
    (by rfl)).1

/-- Witness for C3 (amended) at `exStageUnderscore`. -/
theorem double_underscore_reads_witness :
    "__in" ∈ exStageUnderscore.inputStages.getD [] := by
  exact (double_underscore_reads exStageUnderscore ["__in"] rfl).1
    "__in" (by decide) (by decide)

/-- Witness for C4 (amended) at `exJobOk`. -/
theorem construction_total_witness :
    jobSafe exJobOk = true ∧ ∃ p2, construct exJobOk = .ok p2 :=
  ⟨by decide, construction_total_when_safe exJobOk (by decide)⟩

/-- Witness for C5 at the four example documents. -/
theorem validation_witness :
    construct exJobNoKind =
      .ok (invalidPlan exJobNoKind "No plan document found in job.") ∧
    construct exJobWrongKind = .ok (invalidPlan exJobWrongKind
      "Retrieved document is not of kind bigquery but of kind storage#object.") ∧
    construct exJobNoQuery =
      .ok (invalidPlan exJobNoQuery "No query found in job j3") ∧
    exP.isValid = true := by
  refine ⟨(validation_and_invalid_state exJobNoKind).1 rfl, ?_, ?_, ?_⟩
  · exact (validation_and_invalid_state exJobWrongKind).2.1
      "storage#object" rfl (by decide)
  · exact (validation_and_invalid_state exJobNoQuery).2.2.1
      "bigquery#job" {} rfl (by decide) rfl rfl
  · exact (validation_and_invalid_state exJobOk).2.2.2 "bigquery#job"
      exStats { queryPlan := some exQp } exQp exP rfl (by decide) rfl rfl
      rfl (by rfl)

/-- Witness for C6 at start=1000, end=3000, job start=0, job end=10000:
duration 2000, start 10 percent, end 30 percent. -/
theorem timing_enrichment_witness :
    getDisplay (improveNodeInfo exStatsTimes exStageTimes) "durationMs  " =
      some (.numFmt 2000) ∧
    getDisplay (improveNodeInfo exStatsTimes exStageTimes) "start %     " =
      some (.pct 10) ∧
    getDisplay (improveNodeInfo exStatsTimes exStageTimes) "end %       " =
      some (.pct 30) := by
  obtain ⟨ha, hb, hc2⟩ := timing_enrichment exStatsTimes exStageTimes
    1000 3000 0 10000 (by decide) (by decide) (by decide) (by decide)
    (by decide) (by decide) (by decide) (by decide)
  refine ⟨?_, ?_, ?_⟩
  · rw [ha]
    simp only [Option.some.injEq, DisplayVal.numFmt.injEq]
    norm_num
  · rw [hb]
    simp only [Option.some.injEq, DisplayVal.pct.injEq]
    norm_num
  · rw [hc2]
    simp only [Option.some.injEq, DisplayVal.pct.injEq]
    norm_num

/-- Witness for C7 at a stage with non-numeric `startMs` and at a ghost. -/
theorem enrichment_skip_invalid_witness :
    improveNodeInfo exStatsTimes exStageBadStart = exStageBadStart ∧
    improveNodeInfo exStatsTimes (mkGhost "g") = mkGhost "g" :=
  ⟨(enrichment_skip_invalid exStatsTimes exStageBadStart).1
      (Or.inl (by decide)),
    (enrichment_skip_invalid exStatsTimes exStageBadStart).2 "g"⟩

/-- Witness for C8: one internal and one external node give exactly the
internal node's row. -/
theorem gantt_rows_witness :
    ganttRow exNodeInternal ∈ ganttRows [exNodeInternal, exNodeExternal] ∧
    ganttRows [exNodeInternal, exNodeExternal] = [ganttRow exNodeInternal] := by
  have h := gantt_rows_exclude_external [exNodeInternal, exNodeExternal]
  refine ⟨h.2.2.1 exNodeInternal (by decide) (by decide), ?_⟩
  rw [h.1]; decide

/-- Witness for C9 (amended): read average maximal gives the second palette
color; a stage without wait data gets the default. -/
theorem color_palette_selection_witness :
    colorForMaxTime exNodeAllAvgs = some "#7b1fa2" ∧
    colorForMaxTime exStageTimes = some "#2290FF" := by
  have h := color_palette_selection exNodeAllAvgs 5 9 2 rfl (by decide)
    (by decide) (by decide)
  refine ⟨?_, h.2.2 exStageTimes rfl⟩
  rw [h.1]; decide

/-- Witness for C10 at `exStageTimes`: identifier and steps preserved, a
non-display key left untouched, node count preserved. -/
theorem enrichment_frame_witness :
    (improveNodeInfo exStatsTimes exStageTimes).id = exStageTimes.id ∧
    getDisplay (improveNodeInfo exStatsTimes exStageTimes) "other" =
      getDisplay exStageTimes "other" ∧
    (enrich exStatsTimes exQp).length = exQp.length := by
  have h := enrichment_frame exStatsTimes exStageTimes
  exact ⟨h.1.1, h.2.1 "other" (by decide), (h.2.2.1 exQp).2⟩
